import Mathlib

/-!
# The capture-encode-transmit driver of `tx.c`

A shallow embedding of `send_one_frame`, `run_tx` and the `bytes_per_frame`
computation of `main`.

* The audio source (`snd_pcm_readi`), the encoder (`celt_encode_float`) and the
  transport (`rtp_session_send_with_ts`) are library calls.  The driver looks at
  nothing but the integers the first two return, so a behaviour of the
  collaborators is given by the value returned by each successive call
  (`Env`).  Every call the driver issues, and every diagnostic it prints, is
  appended to a trace, in program order.  The timestamp of a send is recorded
  as the transport receives it: the parameter `userts` of
  `rtp_session_send_with_ts` is a `uint32_t`, so the `int` clock is converted
  on the way in (`toUInt32`).  The length `z` is recorded as the encoder
  returned it.
* `static int ts` is a 32-bit signed `int`; `snd_pcm_uframes_t` is
  `unsigned long` (64 bits).  Arithmetic is done over `Int` with the
  conversions written out (`toULong`, `toInt`).  The read result `f` is
  compared with `samples` only after `f < 0` has been excluded, where the
  conversion of `f` to `unsigned long` leaves it unchanged.
* `kbps`, `frame` and `rate` of `main` are `unsigned int` (32 bits).
* `run_tx` is `for (;;)`; the embedding takes a number of iterations to run and
  answers `none` when the loop is still running after them.
-/

namespace Tx

/-! ## Machine integers -/

/-- Conversion of an integer value to `unsigned long` (64 bits): reduction modulo `2^64`. -/
def toULong (x : Int) : Int := x % 2 ^ 64

/-- Conversion of an integer value to `int` (32 bits, two's complement):
reduction modulo `2^32` into `[-2^31, 2^31)`. -/
def toInt (x : Int) : Int := (x + 2 ^ 31) % 2 ^ 32 - 2 ^ 31

/-- Conversion of an integer value to `uint32_t`: reduction modulo `2^32` into
`[0, 2^32)`.  This is the type of the timestamp parameter `userts` of oRTP's
`rtp_session_send_with_ts`. -/
def toUInt32 (x : Int) : Int := x % 2 ^ 32

/-- The statement `ts += samples;` with `int ts` and `unsigned long samples`:
`ts` is converted to `unsigned long`, the sum is taken in `unsigned long`, and
the result is converted back to `int`. -/
def advance (ts : Int) (samples : Nat) : Int :=
  toInt (toULong (toULong ts + (samples : Int)))

/-! ## Collaborators, state and trace -/

/-- What the driver does to the outside world, in program order. -/
inductive Event where
  /-- The call `snd_pcm_readi(snd, pcm, samples)`; `pcm` holds `pcmFloats` floats. -/
  | readi (pcmFloats samples : Nat)
  /-- The diagnostic `aerror("snd_pcm_readi", f)`. -/
  | aerror (f : Int)
  /-- The diagnostic `"Short read, %ld\n"`. -/
  | shortRead (f : Int)
  /-- The call `celt_encode_float(encoder, pcm, NULL, packet, bytes_per_frame)`. -/
  | encode (bytes_per_frame : Nat)
  /-- The diagnostic `"celt_encode_float failed\n"`. -/
  | encodeFailed
  /-- The call `rtp_session_send_with_ts(session, packet, z, ts)`: the length
  `z` and the timestamp as the `uint32_t` the transport receives. -/
  | send (z userts : Int)
  /-- The progress mark `fputc('>', stderr)` of `run_tx`. -/
  | progress
  deriving DecidableEq

/-- A behaviour of the audio source and of the encoder: the value returned by
the `n`-th call (from 0) of `snd_pcm_readi` and of `celt_encode_float`. -/
structure Env where
  readi : Nat → Int
  encode : Nat → Int

/-- The state the driver owns or observes across calls: the `static int ts` of
`send_one_frame`, how many times each collaborator has been called, and the
trace so far. -/
structure State where
  ts : Int
  reads : Nat
  encodes : Nat
  trace : List Event
  deriving DecidableEq

/-- The state at program start: `static int ts = 0`, nothing called yet. -/
def fresh : State := ⟨0, 0, 0, []⟩

/-- Append an event to the trace. -/
def State.log (s : State) (e : Event) : State := { s with trace := s.trace ++ [e] }

/-! ## The driver -/

/-- `send_one_frame` (tx.c lines 35-69). -/
def send_one_frame (env : Env) (channels samples bytes_per_frame : Nat) (s : State) :
    Int × State :=
  -- f = snd_pcm_readi(snd, pcm, samples);
  let f := env.readi s.reads
  let s := { s.log (Event.readi (samples * channels) samples) with reads := s.reads + 1 }
  if f < 0 then
    (-1, s.log (Event.aerror f))
  else
    -- if (f < samples) fprintf(stderr, "Short read, %ld\n", f);
    let s := if f < (samples : Int) then s.log (Event.shortRead f) else s
    -- z = celt_encode_float(encoder, pcm, NULL, packet, bytes_per_frame);
    let z := env.encode s.encodes
    let s := { s.log (Event.encode bytes_per_frame) with encodes := s.encodes + 1 }
    if z < 0 then
      (-1, s.log Event.encodeFailed)
    else
      -- rtp_session_send_with_ts(session, packet, z, ts); ts += samples;
      let s := s.log (Event.send z (toUInt32 s.ts))
      (0, { s with ts := advance s.ts samples })

/-- `run_tx` (tx.c lines 71-90), run for at most `fuel` iterations of its
`for (;;)`.  The first component is `some r` when the loop has returned `r`,
and `none` when it is still running after `fuel` iterations. -/
def run_tx (env : Env) (verbose : Nat) (channels frame bytes_per_frame : Nat) :
    Nat → State → Option Int × State
  | 0, s => (none, s)
  | fuel + 1, s =>
    match send_one_frame env channels frame bytes_per_frame s with
    | (r, s) =>
      if r = -1 then (some (-1), s)
      else run_tx env verbose channels frame bytes_per_frame fuel
        (if verbose > 1 then s.log Event.progress else s)

/-- The computation `bytes_per_frame = kbps * 1024 * frame / rate / 8` of
`main` (tx.c line 198).  The operands are `unsigned int` values, so each
product is reduced modulo `2^32`; a zero `rate` is a division by zero and
gives no value. -/
def bytes_per_frame (kbps frame rate : Nat) : Option Nat :=
  if rate = 0 then none
  else some (kbps * 1024 % 2 ^ 32 * frame % 2 ^ 32 / rate / 8)

/-! ## Observations on a trace -/

/-- The packets handed to the transport, oldest first, as (length, timestamp). -/
def sent : List Event → List (Int × Int)
  | [] => []
  | Event.send z userts :: es => (z, userts) :: sent es
  | _ :: es => sent es

/-- Whether an event is a call of `snd_pcm_readi`. -/
def isRead : Event → Bool
  | Event.readi _ _ => true
  | _ => false

/-- Whether an event is a call of `celt_encode_float`. -/
def isEncode : Event → Bool
  | Event.encode _ => true
  | _ => false

/-- The state after `n` consecutive calls of `send_one_frame`. -/
def calls (env : Env) (channels samples bytes_per_frame : Nat) : Nat → State → State
  | 0, s => s
  | n + 1, s =>
    (send_one_frame env channels samples bytes_per_frame
      (calls env channels samples bytes_per_frame n s)).2

/-- The value returned by call number `i` (from 0) in a sequence of
consecutive calls of `send_one_frame` starting in state `s`. -/
def result (env : Env) (channels samples bytes_per_frame : Nat) (i : Nat) (s : State) : Int :=
  (send_one_frame env channels samples bytes_per_frame
    (calls env channels samples bytes_per_frame i s)).1

/-- A source that always fills the request and an encoder that always fills its budget. -/
def steady (samples bytes_per_frame : Nat) : Env :=
  ⟨fun _ => samples, fun _ => bytes_per_frame⟩

/-- A source that fills 256 frames except for a short second read of 200, and
an encoder that always fills a budget of 47 bytes. -/
def oneShortRead : Env := ⟨fun i => if i = 1 then 200 else 256, fun _ => 47⟩

/-- A source that fills 256 frames except for a short read of 200 at call
8388607, and an encoder that always fills a budget of 47 bytes. -/
def shortReadAtWrap : Env := ⟨fun i => if i = 8388607 then 200 else 256, fun _ => 47⟩

/-- A source whose reads are all short (200 frames) and an encoder that always fails. -/
def shortThenBroken : Env := ⟨fun _ => 200, fun _ => -1⟩

/-- A source whose third read fails with `-EPIPE`, the others filling 256 frames. -/
def thirdReadFails : Env := ⟨fun i => if i = 2 then -32 else 256, fun _ => 47⟩

/-- A source whose reads all fail with `-EPIPE`. -/
def brokenSource : Env := ⟨fun _ => -32, fun _ => 40⟩

/-- A source that fills 256 frames and an encoder that always fails. -/
def brokenEncoder : Env := ⟨fun _ => 256, fun _ => -1⟩

/-- The events of one call of `send_one_frame` up to and including the read,
for a read that returned `f >= 0`. -/
def readEvents (channels samples : Nat) (f : Int) : List Event :=
  Event.readi (samples * channels) samples ::
    (if f < (samples : Int) then [Event.shortRead f] else [])

/-- The events of a call of `send_one_frame` that fails, on a read result `f`:
the read and its diagnostic when `f < 0`, and otherwise the read, the encoder
call and the encoder's diagnostic. -/
def failEvents (channels samples bytes_per_frame : Nat) (f : Int) : List Event :=
  if f < 0 then [Event.readi (samples * channels) samples, Event.aerror f]
  else readEvents channels samples f ++ [Event.encode bytes_per_frame, Event.encodeFailed]

/-! ## Machine integers: lemmas -/

theorem advance_eq (ts : Int) (samples : Nat) : advance ts samples = toInt (ts + samples) := by
  unfold advance toInt toULong
  omega

theorem toInt_toInt_add (a b : Int) : toInt (toInt a + b) = toInt (a + b) := by
  unfold toInt
  omega

theorem toInt_of_range {x : Int} (h0 : -2 ^ 31 ≤ x) (h1 : x < 2 ^ 31) : toInt x = x := by
  unfold toInt
  omega

theorem toUInt32_toInt (x : Int) : toUInt32 (toInt x) = toUInt32 x := by
  unfold toUInt32 toInt
  omega

theorem toUInt32_toInt_add (a b : Int) : toUInt32 (toInt a + b) = toUInt32 (a + b) := by
  unfold toUInt32 toInt
  omega

theorem toUInt32_of_range {x : Int} (h0 : 0 ≤ x) (h1 : x < 2 ^ 32) : toUInt32 x = x := by
  unfold toUInt32
  omega

theorem toInt_range (x : Int) : -2 ^ 31 ≤ toInt x ∧ toInt x < 2 ^ 31 := by
  unfold toInt
  omega

/-! ## Traces: lemmas -/

theorem sent_append (a b : List Event) : sent (a ++ b) = sent a ++ sent b := by
  induction a with
  | nil => rfl
  | cons e es ih => cases e <;> simp [sent, ih]

theorem sent_readEvents (channels samples : Nat) (f : Int) :
    sent (readEvents channels samples f) = [] := by
  unfold readEvents
  split <;> rfl

theorem sent_encode_failed (b : Nat) : sent [Event.encode b, Event.encodeFailed] = [] := rfl

theorem sent_encode_send (b : Nat) (z ts : Int) :
    sent [Event.encode b, Event.send z ts] = [(z, ts)] := rfl

theorem countP_isRead_readEvents (channels samples : Nat) (f : Int) :
    (readEvents channels samples f).countP isRead = 1 := by
  unfold readEvents
  split <;> rfl

theorem countP_isEncode_readEvents (channels samples : Nat) (f : Int) :
    (readEvents channels samples f).countP isEncode = 0 := by
  unfold readEvents
  split <;> rfl

/-! ## One call of `send_one_frame` -/

section step

variable (env : Env) (channels samples bytes_per_frame : Nat) (s : State)

/-- The read fails: lines 51-55. -/
theorem send_one_frame_read_error (h : env.readi s.reads < 0) :
    send_one_frame env channels samples bytes_per_frame s =
      (-1, { ts := s.ts, reads := s.reads + 1, encodes := s.encodes,
             trace := s.trace ++
               [Event.readi (samples * channels) samples, Event.aerror (env.readi s.reads)] }) := by
  simp [send_one_frame, State.log, h]

/-- The read succeeds and the encoder fails: lines 51-63. -/
theorem send_one_frame_encode_error (hf : 0 ≤ env.readi s.reads)
    (hz : env.encode s.encodes < 0) :
    send_one_frame env channels samples bytes_per_frame s =
      (-1, { ts := s.ts, reads := s.reads + 1, encodes := s.encodes + 1,
             trace := s.trace ++ (readEvents channels samples (env.readi s.reads) ++
               [Event.encode bytes_per_frame, Event.encodeFailed]) }) := by
  have hf' : ¬ env.readi s.reads < 0 := not_lt.mpr hf
  by_cases hs : env.readi s.reads < (samples : Int) <;>
    simp [send_one_frame, State.log, readEvents, hf', hz, hs]

/-- The read and the encoder succeed: lines 51-68. -/
theorem send_one_frame_ok (hf : 0 ≤ env.readi s.reads) (hz : 0 ≤ env.encode s.encodes) :
    send_one_frame env channels samples bytes_per_frame s =
      (0, { ts := advance s.ts samples, reads := s.reads + 1, encodes := s.encodes + 1,
            trace := s.trace ++ (readEvents channels samples (env.readi s.reads) ++
              [Event.encode bytes_per_frame,
                Event.send (env.encode s.encodes) (toUInt32 s.ts)]) }) := by
  have hf' : ¬ env.readi s.reads < 0 := not_lt.mpr hf
  have hz' : ¬ env.encode s.encodes < 0 := not_lt.mpr hz
  by_cases hs : env.readi s.reads < (samples : Int) <;>
    simp [send_one_frame, State.log, readEvents, hf', hz', hs]

/-- The value returned is 0 exactly when both collaborators succeed. -/
theorem send_one_frame_eq_zero_iff :
    (send_one_frame env channels samples bytes_per_frame s).1 = 0 ↔
      0 ≤ env.readi s.reads ∧ 0 ≤ env.encode s.encodes := by
  by_cases hf : env.readi s.reads < 0
  · rw [send_one_frame_read_error env channels samples bytes_per_frame s hf]
    constructor
    · intro h; simp at h
    · intro h; omega
  · by_cases hz : env.encode s.encodes < 0
    · rw [send_one_frame_encode_error env channels samples bytes_per_frame s (not_lt.mp hf) hz]
      constructor
      · intro h; simp at h
      · intro h; omega
    · rw [send_one_frame_ok env channels samples bytes_per_frame s (not_lt.mp hf) (not_lt.mp hz)]
      exact ⟨fun _ => ⟨not_lt.mp hf, not_lt.mp hz⟩, fun _ => rfl⟩

/-- The value returned is 0 or -1. -/
theorem send_one_frame_zero_or_neg_one :
    (send_one_frame env channels samples bytes_per_frame s).1 = 0 ∨
      (send_one_frame env channels samples bytes_per_frame s).1 = -1 := by
  by_cases hf : env.readi s.reads < 0
  · rw [send_one_frame_read_error env channels samples bytes_per_frame s hf]; exact Or.inr rfl
  · by_cases hz : env.encode s.encodes < 0
    · rw [send_one_frame_encode_error env channels samples bytes_per_frame s (not_lt.mp hf) hz]
      exact Or.inr rfl
    · rw [send_one_frame_ok env channels samples bytes_per_frame s (not_lt.mp hf) (not_lt.mp hz)]
      exact Or.inl rfl

end step

/-! ## Consecutive calls of `send_one_frame` -/

section iterate

variable (env : Env) (channels samples bytes_per_frame : Nat)

/-- While the calls succeed, the clock and the call counters have closed forms. -/
theorem calls_of_ok (s : State) (hs : toInt s.ts = s.ts) (k : Nat)
    (h : ∀ i, i < k → result env channels samples bytes_per_frame i s = 0) :
    (calls env channels samples bytes_per_frame k s).ts = toInt (s.ts + k * samples) ∧
    (calls env channels samples bytes_per_frame k s).reads = s.reads + k ∧
    (calls env channels samples bytes_per_frame k s).encodes = s.encodes + k := by
  induction k with
  | zero => simp [calls, hs]
  | succ k ih =>
    obtain ⟨hts, hr, he⟩ := ih (fun i hi => h i (Nat.lt_succ_of_lt hi))
    have hk := h k (Nat.lt_succ_self k)
    unfold result at hk
    obtain ⟨hf, hz⟩ := (send_one_frame_eq_zero_iff env channels samples bytes_per_frame _).mp hk
    have hstep := send_one_frame_ok env channels samples bytes_per_frame _ hf hz
    simp only [calls, hstep]
    refine ⟨?_, by omega, by omega⟩
    rw [advance_eq, hts, toInt_toInt_add]
    congr 1
    push_cast
    ring

/-- Collaborators that never fail make every call succeed. -/
theorem result_of_never_fails (h : ∀ i, 0 ≤ env.readi i ∧ 0 ≤ env.encode i)
    (i : Nat) (s : State) : result env channels samples bytes_per_frame i s = 0 :=
  (send_one_frame_eq_zero_iff env channels samples bytes_per_frame _).mpr ⟨(h _).1, (h _).2⟩

end iterate

/-! ## The loop of `run_tx` -/

section loop

variable (env : Env) (verbose channels frame bytes_per_frame : Nat)

theorem run_tx_succ_of_ok (fuel : Nat) (s : State)
    (h : (send_one_frame env channels frame bytes_per_frame s).1 = 0) :
    run_tx env verbose channels frame bytes_per_frame (fuel + 1) s =
      run_tx env verbose channels frame bytes_per_frame fuel
        (if verbose > 1 then
          (send_one_frame env channels frame bytes_per_frame s).2.log Event.progress
         else (send_one_frame env channels frame bytes_per_frame s).2) := by
  rw [run_tx]
  have h' : ¬ (send_one_frame env channels frame bytes_per_frame s).1 = -1 := by
    rw [h]; decide
  simp only [h', if_false]

theorem run_tx_succ_of_fail (fuel : Nat) (s : State)
    (h : (send_one_frame env channels frame bytes_per_frame s).1 = -1) :
    run_tx env verbose channels frame bytes_per_frame (fuel + 1) s =
      (some (-1), (send_one_frame env channels frame bytes_per_frame s).2) := by
  rw [run_tx]
  simp only [h, if_true]

/-- Whatever `run_tx` returns is -1. -/
theorem run_tx_returns_neg_one (fuel : Nat) (s : State) (r : Int)
    (h : (run_tx env verbose channels frame bytes_per_frame fuel s).1 = some r) : r = -1 := by
  induction fuel generalizing s with
  | zero => simp [run_tx] at h
  | succ fuel ih =>
    rcases send_one_frame_zero_or_neg_one env channels frame bytes_per_frame s with h0 | h1
    · rw [run_tx_succ_of_ok env verbose channels frame bytes_per_frame fuel s h0] at h
      exact ih _ h
    · rw [run_tx_succ_of_fail env verbose channels frame bytes_per_frame fuel s h1] at h
      simpa using h.symm

/-- Once `run_tx` has returned, more iterations change nothing. -/
theorem run_tx_stable (n m : Nat) (s : State) (r : Int)
    (h : (run_tx env verbose channels frame bytes_per_frame n s).1 = some r) :
    run_tx env verbose channels frame bytes_per_frame (n + m) s =
      run_tx env verbose channels frame bytes_per_frame n s := by
  induction n generalizing s with
  | zero => simp [run_tx] at h
  | succ n ih =>
    rw [Nat.succ_add]
    rcases send_one_frame_zero_or_neg_one env channels frame bytes_per_frame s with h0 | h1
    · rw [run_tx_succ_of_ok env verbose channels frame bytes_per_frame n s h0] at h ⊢
      rw [run_tx_succ_of_ok env verbose channels frame bytes_per_frame (n + m) s h0]
      exact ih _ h
    · rw [run_tx_succ_of_fail env verbose channels frame bytes_per_frame n s h1,
        run_tx_succ_of_fail env verbose channels frame bytes_per_frame (n + m) s h1]

/-- While `run_tx` is still running, its iterations compose. -/
theorem run_tx_add (n m : Nat) (s : State)
    (h : (run_tx env verbose channels frame bytes_per_frame n s).1 = none) :
    run_tx env verbose channels frame bytes_per_frame (n + m) s =
      run_tx env verbose channels frame bytes_per_frame m
        (run_tx env verbose channels frame bytes_per_frame n s).2 := by
  induction n generalizing s with
  | zero => simp [run_tx]
  | succ n ih =>
    rw [Nat.succ_add]
    rcases send_one_frame_zero_or_neg_one env channels frame bytes_per_frame s with h0 | h1
    · rw [run_tx_succ_of_ok env verbose channels frame bytes_per_frame n s h0] at h ⊢
      rw [run_tx_succ_of_ok env verbose channels frame bytes_per_frame (n + m) s h0]
      exact ih _ h
    · rw [run_tx_succ_of_fail env verbose channels frame bytes_per_frame n s h1] at h
      simp at h

/-- The progress mark changes neither the clock, nor the counters, nor the calls made. -/
theorem progress_mark (s : State) :
    (if verbose > 1 then s.log Event.progress else s).ts = s.ts ∧
    (if verbose > 1 then s.log Event.progress else s).reads = s.reads ∧
    (if verbose > 1 then s.log Event.progress else s).encodes = s.encodes ∧
    sent (if verbose > 1 then s.log Event.progress else s).trace = sent s.trace ∧
    (if verbose > 1 then s.log Event.progress else s).trace.countP isRead =
      s.trace.countP isRead ∧
    (if verbose > 1 then s.log Event.progress else s).trace.countP isEncode =
      s.trace.countP isEncode := by
  by_cases hv : verbose > 1
  · simp [hv, State.log, sent_append, sent, List.countP_append, isRead, isEncode]
  · simp [hv]

/-- If `run_tx` is still running after `n` iterations, the collaborators
succeeded in each of them. -/
theorem run_tx_none_imp (n : Nat) (s : State)
    (h : (run_tx env verbose channels frame bytes_per_frame n s).1 = none) :
    ∀ i, i < n → 0 ≤ env.readi (s.reads + i) ∧ 0 ≤ env.encode (s.encodes + i) := by
  induction n generalizing s with
  | zero => intro i hi; omega
  | succ n ih =>
    rcases send_one_frame_zero_or_neg_one env channels frame bytes_per_frame s with h0 | h1
    · rw [run_tx_succ_of_ok env verbose channels frame bytes_per_frame n s h0] at h
      have hok := (send_one_frame_eq_zero_iff env channels frame bytes_per_frame s).mp h0
      have hrec := ih _ h
      obtain ⟨_, hr, he, _⟩ := progress_mark verbose
        (send_one_frame env channels frame bytes_per_frame s).2
      rw [hr, he, send_one_frame_ok env channels frame bytes_per_frame s hok.1 hok.2] at hrec
      intro i hi
      cases i with
      | zero => simpa using hok
      | succ i =>
        have := hrec i (Nat.lt_of_succ_lt_succ hi)
        simpa [Nat.add_assoc, Nat.add_comm 1 i] using this
    · rw [run_tx_succ_of_fail env verbose channels frame bytes_per_frame n s h1] at h
      simp at h

/-- While the collaborators succeed, `run_tx` keeps running and its state has a
closed form: the clock, the counters, the packets sent and the number of reads
and encoder calls. -/
theorem run_tx_of_ok (n : Nat) (s : State) (hs : toInt s.ts = s.ts)
    (h : ∀ i, i < n → 0 ≤ env.readi (s.reads + i) ∧ 0 ≤ env.encode (s.encodes + i)) :
    (run_tx env verbose channels frame bytes_per_frame n s).1 = none ∧
    (run_tx env verbose channels frame bytes_per_frame n s).2.ts = toInt (s.ts + n * frame) ∧
    (run_tx env verbose channels frame bytes_per_frame n s).2.reads = s.reads + n ∧
    (run_tx env verbose channels frame bytes_per_frame n s).2.encodes = s.encodes + n ∧
    sent (run_tx env verbose channels frame bytes_per_frame n s).2.trace =
      sent s.trace ++ (List.range n).map
        (fun i => (env.encode (s.encodes + i), toUInt32 (s.ts + i * frame))) ∧
    (run_tx env verbose channels frame bytes_per_frame n s).2.trace.countP isRead =
      s.trace.countP isRead + n ∧
    (run_tx env verbose channels frame bytes_per_frame n s).2.trace.countP isEncode =
      s.trace.countP isEncode + n := by
  induction n generalizing s with
  | zero => simp [run_tx, hs]
  | succ n ih =>
    have h0 := h 0 (Nat.succ_pos n)
    simp only [Nat.add_zero] at h0
    have hstep := send_one_frame_ok env channels frame bytes_per_frame s h0.1 h0.2
    have hret : (send_one_frame env channels frame bytes_per_frame s).1 = 0 := by rw [hstep]
    rw [run_tx_succ_of_ok env verbose channels frame bytes_per_frame n s hret]
    obtain ⟨pts, pr, pe, psent, pcr, pce⟩ := progress_mark verbose
      (send_one_frame env channels frame bytes_per_frame s).2
    generalize (if verbose > 1 then
        (send_one_frame env channels frame bytes_per_frame s).2.log Event.progress
      else (send_one_frame env channels frame bytes_per_frame s).2) = s1 at pts pr pe psent pcr pce
    rw [hstep] at pts pr pe psent pcr pce
    simp only at pts pr pe psent pcr pce
    have hs1 : toInt s1.ts = s1.ts := by
      rw [pts, advance_eq]
      have := toInt_range (s.ts + frame)
      exact toInt_of_range this.1 this.2
    have hrec := ih s1 hs1 (by
      intro i hi
      have := h (i + 1) (Nat.succ_lt_succ hi)
      rw [pr, pe]
      simpa [Nat.add_assoc, Nat.add_comm 1 i] using this)
    obtain ⟨r1, r2, r3, r4, r5, r6, r7⟩ := hrec
    refine ⟨r1, ?_, by omega, by omega, ?_, ?_, ?_⟩
    · rw [r2, pts, advance_eq, toInt_toInt_add]
      congr 1
      push_cast
      ring
    · rw [r5, psent, sent_append, sent_append, sent_readEvents, List.range_succ_eq_map,
        List.map_cons, List.map_map]
      simp only [List.nil_append, sent, List.append_assoc, List.singleton_append, Nat.add_zero,
        Nat.cast_zero, zero_mul, add_zero, hs]
      congr 2
      apply List.map_congr_left
      intro i _
      simp only [Function.comp, pe, pts, advance_eq, toUInt32_toInt_add]
      congr 2
      · omega
      · push_cast
        ring
    · rw [r6, pcr, List.countP_append, List.countP_append, countP_isRead_readEvents]
      simp [isRead]
      omega
    · rw [r7, pce, List.countP_append, List.countP_append, countP_isEncode_readEvents]
      simp [isEncode]
      omega

end loop

/-! ## The byte budget -/

/-- C4 (as stated, refuted): for bitrate 8192, frame size 512 and sample rate
48000 the program computes 0, because `8192 * 1024 * 512 = 2^32` wraps to 0 in
`unsigned int`, while the formula over the natural numbers gives 11184. -/
theorem bytes_per_frame_wraps :
    bytes_per_frame 8192 512 48000 = some 0 ∧ 8192 * 1024 * 512 / 48000 / 8 = 11184 := by
  decide

/-- C4 (amended): for every configuration with `rate > 0` whose product
`kbps * 1024 * frame` is below `2^32`, the value the program computes is
`kbps * 1024 * frame / rate / 8` over the natural numbers, with truncating
division, evaluated left to right. -/
theorem bytes_per_frame_exact (kbps frame rate : Nat) (hr : 0 < rate)
    (h : kbps * 1024 * frame < 2 ^ 32) :
    bytes_per_frame kbps frame rate = some (kbps * 1024 * frame / rate / 8) := by
  have h1 : kbps * 1024 % 2 ^ 32 * frame = kbps * 1024 * frame := by
    rcases Nat.eq_zero_or_pos frame with hf | hf
    · simp [hf]
    · have : kbps * 1024 ≤ kbps * 1024 * frame := Nat.le_mul_of_pos_right _ hf
      rw [Nat.mod_eq_of_lt (lt_of_le_of_lt this h)]
  unfold bytes_per_frame
  rw [if_neg (Nat.pos_iff_ne_zero.mp hr), h1, Nat.mod_eq_of_lt h]

/-- C4 (amended), at `{bitrate = 32, frame_size = 480, sample_rate = 48000}`: 40 bytes. -/
theorem bytes_per_frame_exact_witness :
    0 < 48000 ∧ 32 * 1024 * 480 < 2 ^ 32 ∧ bytes_per_frame 32 480 48000 = some 40 :=
  ⟨by decide, by decide, bytes_per_frame_exact 32 480 48000 (by decide) (by decide)⟩

/-- C5 (as stated, refuted): for bitrate 64, frame size 256 and sample rate
44100 the program does not compute 475. -/
theorem bytes_per_frame_is_not_475 : bytes_per_frame 64 256 44100 ≠ some 475 := by
  decide

/-- C5 (amended): for bitrate 64, frame size 256 and sample rate 44100 the
program computes 47 (`16777216 / 44100 = 380`, `380 / 8 = 47`). -/
theorem bytes_per_frame_64_256_44100 : bytes_per_frame 64 256 44100 = some 47 := by
  decide

/-! ## One step: failures and the packet handed over -/

/-- C6: if the read reports an error (a negative count), then from any state
the step returns -1, leaves the clock and the number of encoder calls as they
were, hands no packet to the transport, and does nothing but the read and its
diagnostic. -/
theorem read_error_step (env : Env) (channels samples bytes_per_frame : Nat) (s : State)
    (h : env.readi s.reads < 0) :
    (send_one_frame env channels samples bytes_per_frame s).1 = -1 ∧
    (send_one_frame env channels samples bytes_per_frame s).2.ts = s.ts ∧
    (send_one_frame env channels samples bytes_per_frame s).2.encodes = s.encodes ∧
    sent (send_one_frame env channels samples bytes_per_frame s).2.trace = sent s.trace ∧
    (send_one_frame env channels samples bytes_per_frame s).2.trace =
      s.trace ++ [Event.readi (samples * channels) samples, Event.aerror (env.readi s.reads)] := by
  rw [send_one_frame_read_error env channels samples bytes_per_frame s h]
  simp [sent_append, sent]

/-- C6, on a source whose first read fails with -32. -/
theorem read_error_step_witness :
    brokenSource.readi fresh.reads < 0 ∧
    (send_one_frame brokenSource 2 256 40 fresh).1 = -1 ∧
    (send_one_frame brokenSource 2 256 40 fresh).2.ts = fresh.ts ∧
    (send_one_frame brokenSource 2 256 40 fresh).2.encodes = fresh.encodes ∧
    sent (send_one_frame brokenSource 2 256 40 fresh).2.trace = sent fresh.trace ∧
    (send_one_frame brokenSource 2 256 40 fresh).2.trace =
      fresh.trace ++ [Event.readi (256 * 2) 256, Event.aerror (brokenSource.readi fresh.reads)] :=
  ⟨by decide, read_error_step brokenSource 2 256 40 fresh (by decide)⟩

/-- C7: if the read succeeds and the encoder reports failure (a negative
size), then the step returns -1, leaves the clock as it was, hands no packet to
the transport, and does nothing after the encoder call but print its
diagnostic. -/
theorem encode_error_step (env : Env) (channels samples bytes_per_frame : Nat) (s : State)
    (hf : 0 ≤ env.readi s.reads) (hz : env.encode s.encodes < 0) :
    (send_one_frame env channels samples bytes_per_frame s).1 = -1 ∧
    (send_one_frame env channels samples bytes_per_frame s).2.ts = s.ts ∧
    sent (send_one_frame env channels samples bytes_per_frame s).2.trace = sent s.trace ∧
    (send_one_frame env channels samples bytes_per_frame s).2.trace =
      s.trace ++ (readEvents channels samples (env.readi s.reads) ++
        [Event.encode bytes_per_frame, Event.encodeFailed]) := by
  rw [send_one_frame_encode_error env channels samples bytes_per_frame s hf hz]
  simp only [sent_append, sent_readEvents, sent_encode_failed, List.append_nil, and_self]

/-- C7, on an encoder that fails after a full read of 256 frames. -/
theorem encode_error_step_witness :
    0 ≤ brokenEncoder.readi fresh.reads ∧ brokenEncoder.encode fresh.encodes < 0 ∧
    (send_one_frame brokenEncoder 2 256 40 fresh).1 = -1 ∧
    (send_one_frame brokenEncoder 2 256 40 fresh).2.ts = fresh.ts ∧
    sent (send_one_frame brokenEncoder 2 256 40 fresh).2.trace = sent fresh.trace ∧
    (send_one_frame brokenEncoder 2 256 40 fresh).2.trace =
      fresh.trace ++ (readEvents 2 256 (brokenEncoder.readi fresh.reads) ++
        [Event.encode 40, Event.encodeFailed]) :=
  ⟨by decide, by decide, encode_error_step brokenEncoder 2 256 40 fresh (by decide) (by decide)⟩

theorem steady_never_fails (samples bytes_per_frame : Nat) (i : Nat) :
    0 ≤ (steady samples bytes_per_frame).readi i ∧
    0 ≤ (steady samples bytes_per_frame).encode i :=
  ⟨Int.ofNat_zero_le _, Int.ofNat_zero_le _⟩

theorem oneShortRead_never_fails (i : Nat) :
    0 ≤ oneShortRead.readi i ∧ 0 ≤ oneShortRead.encode i := by
  constructor
  · show (0 : Int) ≤ if i = 1 then 200 else 256
    split <;> decide
  · show (0 : Int) ≤ 47
    decide

/-- The clock after `k` successful calls from program start. -/
theorem clock_closed_form (env : Env) (channels samples bytes_per_frame k : Nat)
    (h : ∀ i, i < k → result env channels samples bytes_per_frame i fresh = 0) :
    (calls env channels samples bytes_per_frame k fresh).ts = toInt (k * samples) := by
  have := (calls_of_ok env channels samples bytes_per_frame fresh (by decide) k h).1
  simpa [fresh] using this

/-- C1 (as stated, refuted): with frame size 480, a source and an encoder that
never fail, the first 4473925 calls all return 0 and the clock after them is
-2147483296, not `4473925 * 480 = 2147484000`. -/
theorem clock_wraps_at_480 :
    (∀ i, i < 4473925 → result (steady 480 40) 1 480 40 i fresh = 0) ∧
    (calls (steady 480 40) 1 480 40 4473925 fresh).ts = -2147483296 ∧
    (-2147483296 : Int) ≠ 4473925 * 480 := by
  have h : ∀ i, i < 4473925 → result (steady 480 40) 1 480 40 i fresh = 0 :=
    fun i _ => result_of_never_fails _ 1 480 40 (steady_never_fails 480 40) i fresh
  refine ⟨h, ?_, by decide⟩
  rw [clock_closed_form (steady 480 40) 1 480 40 4473925 h]
  decide

/-- C1 (amended): for every frame size and every `k`, and every behaviour of
the source and the encoder in which the first `k` calls all return 0, the clock
after the `k`-th call is `k * frame_size` reduced modulo `2^32` into the range
of `int`, whatever the reads returned; it is `k * frame_size` itself whenever
`k * frame_size < 2^31`. -/
theorem clock_after_calls (env : Env) (channels samples bytes_per_frame k : Nat)
    (h : ∀ i, i < k → result env channels samples bytes_per_frame i fresh = 0) :
    (calls env channels samples bytes_per_frame k fresh).ts = toInt (k * samples) ∧
    (k * samples < 2 ^ 31 →
      (calls env channels samples bytes_per_frame k fresh).ts = k * samples) := by
  have hts := clock_closed_form env channels samples bytes_per_frame k h
  refine ⟨hts, fun hb => ?_⟩
  rw [hts]
  have hb' : ((k * samples : Nat) : Int) < 2 ^ 31 := by exact_mod_cast hb
  have h0 : (0 : Int) ≤ ((k * samples : Nat) : Int) := Int.ofNat_zero_le _
  push_cast at hb' h0
  exact toInt_of_range (by omega) hb'

/-- C1 (amended), on three calls with frame size 256 whose second read is short
(200 frames): the clock is 768. -/
theorem clock_after_calls_witness :
    (∀ i, i < 3 → result oneShortRead 2 256 47 i fresh = 0) ∧
    (calls oneShortRead 2 256 47 3 fresh).ts = toInt ((3 : Nat) * (256 : Nat)) ∧
    (3 * 256 < 2 ^ 31 → (calls oneShortRead 2 256 47 3 fresh).ts = (3 : Nat) * (256 : Nat)) :=
  ⟨by decide, clock_after_calls oneShortRead 2 256 47 3 (by decide)⟩

/-- C10: the clock is a 32-bit signed `int`.  After `k` successful steps it is
`k * frame_size` reduced modulo `2^32` into `[-2^31, 2^31)`.  With
`frame_size > 0`, it is the exact product, having increased strictly at every
step so far, exactly when `k * frame_size < 2^31`; and the step that first
takes the product to `2^31` or beyond makes the clock decrease (for a frame
size below `2^32`). -/
theorem clock_is_int32 (env : Env) (channels samples bytes_per_frame k : Nat)
    (hpos : 0 < samples)
    (h : ∀ i, i < k → result env channels samples bytes_per_frame i fresh = 0) :
    (calls env channels samples bytes_per_frame k fresh).ts = toInt (k * samples) ∧
    (((calls env channels samples bytes_per_frame k fresh).ts = k * samples ∧
        ∀ j, j < k →
          (calls env channels samples bytes_per_frame j fresh).ts <
            (calls env channels samples bytes_per_frame (j + 1) fresh).ts) ↔
      k * samples < 2 ^ 31) ∧
    (samples < 2 ^ 32 → k * samples < 2 ^ 31 → 2 ^ 31 ≤ (k + 1) * samples →
      result env channels samples bytes_per_frame k fresh = 0 →
      (calls env channels samples bytes_per_frame (k + 1) fresh).ts <
        (calls env channels samples bytes_per_frame k fresh).ts) := by
  have hts := clock_closed_form env channels samples bytes_per_frame k h
  have hle : ∀ j, j ≤ k →
      (calls env channels samples bytes_per_frame j fresh).ts = toInt (j * samples) :=
    fun j hj => clock_closed_form env channels samples bytes_per_frame j
      (fun i hi => h i (lt_of_lt_of_le hi hj))
  have hsmall : ∀ j : Nat, j * samples < 2 ^ 31 → toInt (j * samples) = j * samples := by
    intro j hb
    have hb' : ((j * samples : Nat) : Int) < 2 ^ 31 := by exact_mod_cast hb
    have h0 : (0 : Int) ≤ ((j * samples : Nat) : Int) := Int.ofNat_zero_le _
    push_cast at hb' h0
    exact toInt_of_range (by omega) hb'
  refine ⟨hts, ⟨fun hx => ?_, fun hb => ⟨?_, fun j hj => ?_⟩⟩, fun h32 hb hcross hk => ?_⟩
  · have hr := (toInt_range (k * samples)).2
    rw [← hts, hx.1] at hr
    exact_mod_cast hr
  · rw [hts, hsmall k hb]
  · have hj1 : (j + 1) * samples ≤ k * samples := Nat.mul_le_mul_right _ hj
    rw [hle j (Nat.le_of_lt hj), hle (j + 1) hj, hsmall j (by nlinarith),
      hsmall (j + 1) (lt_of_le_of_lt hj1 hb)]
    have : j * samples < (j + 1) * samples := by nlinarith
    exact_mod_cast this
  · have hnext := clock_closed_form env channels samples bytes_per_frame (k + 1)
      (fun i hi => by
        rcases Nat.lt_succ_iff_lt_or_eq.mp hi with hlt | heq
        · exact h i hlt
        · rw [heq]; exact hk)
    rw [hnext, hts, hsmall k hb]
    have e1 : (((k + 1 : Nat) : Int) * (samples : Int)) = (k : Int) * samples + samples := by
      push_cast; ring
    have c1 : ((k * samples : Nat) : Int) < 2 ^ 31 := by exact_mod_cast hb
    have c2 : (2 : Int) ^ 31 ≤ (((k + 1) * samples : Nat) : Int) := by exact_mod_cast hcross
    have c3 : (samples : Int) < 2 ^ 32 := by exact_mod_cast h32
    have c0 : (0 : Int) ≤ ((k * samples : Nat) : Int) := Int.ofNat_zero_le _
    push_cast at c1 c2 c0
    have e2 : ((k : Int) + 1) * (samples : Int) = (k : Int) * samples + samples := by ring
    rw [e1]
    rw [e2] at c2
    generalize (k : Int) * (samples : Int) = a at *
    unfold toInt
    omega

/-- C10, on three calls with frame size 256 whose second read is short. -/
theorem clock_is_int32_witness :
    0 < 256 ∧ (∀ i, i < 3 → result oneShortRead 2 256 47 i fresh = 0) ∧
    (calls oneShortRead 2 256 47 3 fresh).ts = toInt ((3 : Nat) * (256 : Nat)) ∧
    (((calls oneShortRead 2 256 47 3 fresh).ts = (3 : Nat) * (256 : Nat) ∧
        ∀ j, j < 3 →
          (calls oneShortRead 2 256 47 j fresh).ts <
            (calls oneShortRead 2 256 47 (j + 1) fresh).ts) ↔
      3 * 256 < 2 ^ 31) ∧
    (256 < 2 ^ 32 → 3 * 256 < 2 ^ 31 → 2 ^ 31 ≤ (3 + 1) * 256 →
      result oneShortRead 2 256 47 3 fresh = 0 →
      (calls oneShortRead 2 256 47 (3 + 1) fresh).ts <
        (calls oneShortRead 2 256 47 3 fresh).ts) :=
  ⟨by decide, by decide, clock_is_int32 oneShortRead 2 256 47 3 (by decide) (by decide)⟩

/-! ## Packets and timestamps of a run -/

/-- The packets of a run that is still going after `n` iterations. -/
theorem run_tx_sent (env : Env) (verbose channels frame bytes_per_frame n : Nat)
    (h : (run_tx env verbose channels frame bytes_per_frame n fresh).1 = none) :
    sent (run_tx env verbose channels frame bytes_per_frame n fresh).2.trace =
      (List.range n).map (fun i => (env.encode i, toUInt32 (i * frame))) := by
  have hok := run_tx_none_imp env verbose channels frame bytes_per_frame n fresh h
  have := (run_tx_of_ok env verbose channels frame bytes_per_frame n fresh (by decide) hok).2.2.2.2.1
  simpa [fresh, sent] using this

/-- The clock of a run that is still going after `n` iterations, at each
earlier iteration. -/
theorem run_tx_clock (env : Env) (verbose channels frame bytes_per_frame n : Nat)
    (h : (run_tx env verbose channels frame bytes_per_frame n fresh).1 = none)
    (i : Nat) (hi : i ≤ n) :
    (run_tx env verbose channels frame bytes_per_frame i fresh).2.ts = toInt (i * frame) := by
  have hok := run_tx_none_imp env verbose channels frame bytes_per_frame n fresh h
  have := (run_tx_of_ok env verbose channels frame bytes_per_frame i fresh (by decide)
    (fun k hk => hok k (lt_of_lt_of_le hk hi))).2.1
  simpa [fresh] using this

/-- C2 (as stated, refuted): with frame size 480 and collaborators that never
fail, the run is still going after 8947850 iterations, and its packet number
8947849 reaches the transport with the timestamp 224, not
`8947849 * 480 = 4294967520`. -/
theorem run_tx_timestamp_wraps_at_480 :
    (run_tx (steady 480 40) 0 1 480 40 8947850 fresh).1 = none ∧
    (sent (run_tx (steady 480 40) 0 1 480 40 8947850 fresh).2.trace)[8947849]? =
      some (40, 224) ∧
    (224 : Int) ≠ 8947849 * 480 := by
  have hrun : (run_tx (steady 480 40) 0 1 480 40 8947850 fresh).1 = none :=
    (run_tx_of_ok (steady 480 40) 0 1 480 40 8947850 fresh (by decide)
      (fun i _ => steady_never_fails 480 40 _)).1
  refine ⟨hrun, ?_, by decide⟩
  rw [run_tx_sent (steady 480 40) 0 1 480 40 8947850 hrun, List.getElem?_map,
    List.getElem?_range (by decide : 8947849 < 8947850)]
  decide

/-- C2 (amended): in a run whose first `n` iterations all succeed, exactly `n`
packets are handed to the transport, in order; packet `i` (from 0) has the
length the encoder returned in iteration `i` and is tagged with the clock
before that iteration's advance, converted to the transport's `uint32_t`
timestamp, which is `i * frame_size` modulo `2^32`; the tag is `i * frame_size`
itself whenever `i * frame_size < 2^32`. -/
theorem run_tx_packets (env : Env) (verbose channels frame bytes_per_frame n : Nat)
    (h : (run_tx env verbose channels frame bytes_per_frame n fresh).1 = none) :
    sent (run_tx env verbose channels frame bytes_per_frame n fresh).2.trace =
      (List.range n).map (fun i => (env.encode i, toUInt32 (i * frame))) ∧
    (sent (run_tx env verbose channels frame bytes_per_frame n fresh).2.trace).length = n ∧
    (∀ i, i < n →
      (sent (run_tx env verbose channels frame bytes_per_frame n fresh).2.trace)[i]? =
        some (env.encode i,
          toUInt32 (run_tx env verbose channels frame bytes_per_frame i fresh).2.ts)) ∧
    ∀ i, i < n → i * frame < 2 ^ 32 →
      (sent (run_tx env verbose channels frame bytes_per_frame n fresh).2.trace)[i]? =
        some (env.encode i, (i : Int) * frame) := by
  have hsent := run_tx_sent env verbose channels frame bytes_per_frame n h
  refine ⟨hsent, by rw [hsent, List.length_map, List.length_range], fun i hi => ?_,
    fun i hi hb => ?_⟩
  · rw [hsent, List.getElem?_map, List.getElem?_range hi,
      run_tx_clock env verbose channels frame bytes_per_frame n h i (Nat.le_of_lt hi),
      toUInt32_toInt]
    rfl
  · rw [hsent, List.getElem?_map, List.getElem?_range hi]
    have hb' : ((i * frame : Nat) : Int) < 2 ^ 32 := by exact_mod_cast hb
    have h0 : (0 : Int) ≤ ((i * frame : Nat) : Int) := Int.ofNat_zero_le _
    push_cast at hb' h0
    simp only [Option.map_some']
    rw [toUInt32_of_range h0 hb']

/-- C2 (amended), on the end-to-end scenario: frame size 480, 100 successful
iterations, packets of 40 bytes. -/
theorem run_tx_packets_witness :
    (run_tx (steady 480 40) 0 1 480 40 100 fresh).1 = none ∧
    sent (run_tx (steady 480 40) 0 1 480 40 100 fresh).2.trace =
      (List.range 100).map (fun i => ((steady 480 40).encode i, toUInt32 (i * (480 : Nat)))) ∧
    (sent (run_tx (steady 480 40) 0 1 480 40 100 fresh).2.trace).length = 100 ∧
    (∀ i, i < 100 →
      (sent (run_tx (steady 480 40) 0 1 480 40 100 fresh).2.trace)[i]? =
        some ((steady 480 40).encode i,
          toUInt32 (run_tx (steady 480 40) 0 1 480 40 i fresh).2.ts)) ∧
    ∀ i, i < 100 → i * 480 < 2 ^ 32 →
      (sent (run_tx (steady 480 40) 0 1 480 40 100 fresh).2.trace)[i]? =
        some ((steady 480 40).encode i, (i : Int) * (480 : Nat)) :=
  ⟨by decide, run_tx_packets (steady 480 40) 0 1 480 40 100 (by decide)⟩

/-! ## Short reads -/

theorem shortReadAtWrap_never_fails (i : Nat) :
    0 ≤ shortReadAtWrap.readi i ∧ 0 ≤ shortReadAtWrap.encode i := by
  constructor
  · show (0 : Int) ≤ if i = 8388607 then 200 else 256
    split <;> decide
  · show (0 : Int) ≤ 47
    decide

/-- C8 (as stated, refuted), in two ways.  A short read of 200 of 256 frames
followed by an encoder failure returns -1 and sends nothing.  And with frame
size 256, when call 8388607 has a short read of 200 frames and succeeds, the
clock goes from 2147483392 to -2147483648, which is not an advance by 256. -/
theorem short_read_not_always_sent_or_advanced :
    ((0 : Int) ≤ shortThenBroken.readi 0 ∧ shortThenBroken.readi 0 < 256 ∧
      (send_one_frame shortThenBroken 1 256 47 fresh).1 = -1 ∧
      sent (send_one_frame shortThenBroken 1 256 47 fresh).2.trace = []) ∧
    ((0 : Int) ≤ shortReadAtWrap.readi 8388607 ∧ shortReadAtWrap.readi 8388607 < 256 ∧
      (calls shortReadAtWrap 1 256 47 8388607 fresh).reads = 8388607 ∧
      result shortReadAtWrap 1 256 47 8388607 fresh = 0 ∧
      (calls shortReadAtWrap 1 256 47 8388607 fresh).ts = 2147483392 ∧
      (calls shortReadAtWrap 1 256 47 (8388607 + 1) fresh).ts = -2147483648 ∧
      (-2147483648 : Int) ≠ 2147483392 + 256) := by
  have h : ∀ i k, i < k → result shortReadAtWrap 1 256 47 i fresh = 0 :=
    fun i _ _ => result_of_never_fails _ 1 256 47 shortReadAtWrap_never_fails i fresh
  refine ⟨by decide, by decide, by decide, ?_, h _ _ (Nat.lt_succ_self 8388607), ?_, ?_, by decide⟩
  · have := (calls_of_ok shortReadAtWrap 1 256 47 fresh (by decide) 8388607 (fun i => h i _)).2.1
    rw [this]
    decide
  · rw [clock_closed_form shortReadAtWrap 1 256 47 8388607 (fun i => h i _)]
    decide
  · rw [clock_closed_form shortReadAtWrap 1 256 47 (8388607 + 1) (fun i => h i _)]
    decide

/-- C8 (amended): for every requested frame size `s` and every read result `f`
with `0 <= f < s`, the step returns the same value, hands the same packets with
the same timestamps to the transport and leaves the same clock as for a full
read with the same encoder result.  When the encoder succeeds, the step calls
the encoder and the transport's send, returns 0, and moves the clock to
`ts + s` reduced modulo `2^32` into the range of `int`, which is `ts + s`
itself, not `ts + f`, whenever `ts + s < 2^31`. -/
theorem short_read_step (env full : Env) (channels samples bytes_per_frame : Nat) (s : State)
    (hf0 : 0 ≤ env.readi s.reads) (hf1 : env.readi s.reads < samples)
    (hfull : full.readi s.reads = samples)
    (henc : full.encode s.encodes = env.encode s.encodes) :
    (send_one_frame env channels samples bytes_per_frame s).1 =
      (send_one_frame full channels samples bytes_per_frame s).1 ∧
    sent (send_one_frame env channels samples bytes_per_frame s).2.trace =
      sent (send_one_frame full channels samples bytes_per_frame s).2.trace ∧
    (send_one_frame env channels samples bytes_per_frame s).2.ts =
      (send_one_frame full channels samples bytes_per_frame s).2.ts ∧
    (0 ≤ env.encode s.encodes →
      (send_one_frame env channels samples bytes_per_frame s).1 = 0 ∧
      (send_one_frame env channels samples bytes_per_frame s).2.trace =
        s.trace ++ [Event.readi (samples * channels) samples,
          Event.shortRead (env.readi s.reads),
          Event.encode bytes_per_frame,
          Event.send (env.encode s.encodes) (toUInt32 s.ts)] ∧
      (send_one_frame env channels samples bytes_per_frame s).2.ts = toInt (s.ts + samples) ∧
      (-2 ^ 31 ≤ s.ts → s.ts + samples < 2 ^ 31 →
        (send_one_frame env channels samples bytes_per_frame s).2.ts = s.ts + samples)) := by
  have hfull0 : 0 ≤ full.readi s.reads := by rw [hfull]; exact Int.ofNat_zero_le _
  by_cases hz : env.encode s.encodes < 0
  · rw [send_one_frame_encode_error env channels samples bytes_per_frame s hf0 hz,
      send_one_frame_encode_error full channels samples bytes_per_frame s hfull0 (henc ▸ hz)]
    simp only [sent_append, sent_readEvents, sent_encode_failed, true_and]
    exact fun h0 => absurd h0 (not_le.mpr hz)
  · have hz0 : 0 ≤ env.encode s.encodes := not_lt.mp hz
    rw [send_one_frame_ok env channels samples bytes_per_frame s hf0 hz0,
      send_one_frame_ok full channels samples bytes_per_frame s hfull0 (henc ▸ hz0)]
    simp only [sent_append, sent_readEvents, sent_encode_send, henc, true_and]
    intro _
    refine ⟨?_, advance_eq _ _, fun hlo hhi => ?_⟩
    · simp [readEvents, hf1]
    · rw [advance_eq]
      exact toInt_of_range (by omega) hhi

/-- C8 (amended), on the second call of a run, whose read returns 200 of 256 frames. -/
theorem short_read_step_witness :
    0 ≤ oneShortRead.readi (calls oneShortRead 2 256 47 1 fresh).reads ∧
    oneShortRead.readi (calls oneShortRead 2 256 47 1 fresh).reads < (256 : Nat) ∧
    (send_one_frame oneShortRead 2 256 47 (calls oneShortRead 2 256 47 1 fresh)).1 = 0 ∧
    (send_one_frame oneShortRead 2 256 47 (calls oneShortRead 2 256 47 1 fresh)).2.ts = 512 ∧
    sent (send_one_frame oneShortRead 2 256 47 (calls oneShortRead 2 256 47 1 fresh)).2.trace =
      [(47, 0), (47, 256)] :=
  have h := short_read_step oneShortRead (steady 256 47) 2 256 47
    (calls oneShortRead 2 256 47 1 fresh) (by decide) (by decide) (by decide) (by decide)
  ⟨by decide, by decide, (h.2.2.2 (by decide)).1,
    (h.2.2.2 (by decide)).2.2.1.trans (by decide), by decide⟩

/-! ## Fail-fast -/

/-- The failing iteration: after `j` successful iterations, a read or encoder
failure in iteration `j` makes `run_tx` return -1 from a state whose trace ends
with the failure's diagnostic. -/
theorem run_tx_failing_iteration (env : Env) (verbose channels frame bytes_per_frame j : Nat)
    (hok : ∀ i, i < j → 0 ≤ env.readi i ∧ 0 ≤ env.encode i)
    (hfail : env.readi j < 0 ∨ env.encode j < 0) :
    (run_tx env verbose channels frame bytes_per_frame (j + 1) fresh).1 = some (-1) ∧
    (run_tx env verbose channels frame bytes_per_frame (j + 1) fresh).2.trace.countP isRead
      = j + 1 ∧
    (run_tx env verbose channels frame bytes_per_frame (j + 1) fresh).2.trace.countP isEncode
      = j + (if env.readi j < 0 then 0 else 1) ∧
    (sent (run_tx env verbose channels frame bytes_per_frame (j + 1) fresh).2.trace).length
      = j ∧
    (run_tx env verbose channels frame bytes_per_frame (j + 1) fresh).2.trace.getLast? =
      some (if env.readi j < 0 then Event.aerror (env.readi j) else Event.encodeFailed) ∧
    (run_tx env verbose channels frame bytes_per_frame (j + 1) fresh).2.trace =
      (run_tx env verbose channels frame bytes_per_frame j fresh).2.trace ++
        failEvents channels frame bytes_per_frame (env.readi j) := by
  have hok' : ∀ i, i < j →
      0 ≤ env.readi (fresh.reads + i) ∧ 0 ≤ env.encode (fresh.encodes + i) := by
    intro i hi
    simpa [fresh] using hok i hi
  obtain ⟨r1, _, r3, r4, r5, r6, r7⟩ :=
    run_tx_of_ok env verbose channels frame bytes_per_frame j fresh (by decide) hok'
  have hr : (run_tx env verbose channels frame bytes_per_frame j fresh).2.reads = j := by
    simpa [fresh] using r3
  have he : (run_tx env verbose channels frame bytes_per_frame j fresh).2.encodes = j := by
    simpa [fresh] using r4
  have hlen : (sent (run_tx env verbose channels frame bytes_per_frame j fresh).2.trace).length
      = j := by
    rw [r5]; simp [fresh, sent]
  have hcr : (run_tx env verbose channels frame bytes_per_frame j fresh).2.trace.countP isRead
      = j := by
    simpa [fresh] using r6
  have hce : (run_tx env verbose channels frame bytes_per_frame j fresh).2.trace.countP isEncode
      = j := by
    simpa [fresh] using r7
  rw [run_tx_add env verbose channels frame bytes_per_frame j 1 fresh r1]
  generalize (run_tx env verbose channels frame bytes_per_frame j fresh).2 = sj at hr he hlen hcr hce
  by_cases hf : env.readi j < 0
  · have hstep := send_one_frame_read_error env channels frame bytes_per_frame sj (hr ▸ hf)
    have hret : (send_one_frame env channels frame bytes_per_frame sj).1 = -1 := by rw [hstep]
    rw [run_tx_succ_of_fail env verbose channels frame bytes_per_frame 0 sj hret, hstep]
    simp only [hf, if_true, hr, List.countP_append, sent_append, List.length_append, hlen, hcr,
      hce, failEvents]
    refine ⟨trivial, ?_, ?_, ?_, ?_, trivial⟩
    · simp [isRead]
    · simp [isEncode]
    · simp [sent]
    · simp
  · have hz : env.encode j < 0 := hfail.resolve_left hf
    have hstep := send_one_frame_encode_error env channels frame bytes_per_frame sj
      (hr ▸ not_lt.mp hf) (he ▸ hz)
    have hret : (send_one_frame env channels frame bytes_per_frame sj).1 = -1 := by rw [hstep]
    rw [run_tx_succ_of_fail env verbose channels frame bytes_per_frame 0 sj hret, hstep]
    simp only [hf, if_false, hr, List.countP_append, sent_append, List.length_append, hlen, hcr,
      hce, countP_isRead_readEvents, countP_isEncode_readEvents, sent_readEvents,
      sent_encode_failed, failEvents]
    refine ⟨trivial, ?_, ?_, ?_, ?_, trivial⟩
    · simp [isRead]
    · simp [isEncode]
    · simp
    · simp

/-- C9: `run_tx` is fail-fast.  If the collaborators succeed in iterations
`0 .. j-1` and the read or the encoder fails in iteration `j` (the `k`-th
iteration, `k = j + 1`), then `run_tx` is still running after each of the
first `j` iterations, returns -1 in iteration `j + 1`, and does nothing more
however many further iterations it is allowed; at its return it has made
exactly `j + 1` reads and `j` sends (and `j` or `j + 1` encoder calls, according
to which collaborator failed), and what it did in the failing iteration is the
read, the encoder call if the read succeeded, and the diagnostic of the
failure, which comes last.  Whatever `run_tx` returns, from any state and for
any collaborators, is -1; and with collaborators that never fail it never
returns. -/
theorem run_tx_fail_fast (env : Env) (verbose channels frame bytes_per_frame j : Nat)
    (hok : ∀ i, i < j → 0 ≤ env.readi i ∧ 0 ≤ env.encode i)
    (hfail : env.readi j < 0 ∨ env.encode j < 0) :
    (∀ fuel, fuel ≤ j →
      (run_tx env verbose channels frame bytes_per_frame fuel fresh).1 = none) ∧
    (∀ fuel, j + 1 ≤ fuel →
      run_tx env verbose channels frame bytes_per_frame fuel fresh =
        run_tx env verbose channels frame bytes_per_frame (j + 1) fresh) ∧
    (run_tx env verbose channels frame bytes_per_frame (j + 1) fresh).1 = some (-1) ∧
    (run_tx env verbose channels frame bytes_per_frame (j + 1) fresh).2.trace.countP isRead
      = j + 1 ∧
    (run_tx env verbose channels frame bytes_per_frame (j + 1) fresh).2.trace.countP isEncode
      = j + (if env.readi j < 0 then 0 else 1) ∧
    (sent (run_tx env verbose channels frame bytes_per_frame (j + 1) fresh).2.trace).length
      = j ∧
    (run_tx env verbose channels frame bytes_per_frame (j + 1) fresh).2.trace.getLast? =
      some (if env.readi j < 0 then Event.aerror (env.readi j) else Event.encodeFailed) ∧
    (run_tx env verbose channels frame bytes_per_frame (j + 1) fresh).2.trace =
      (run_tx env verbose channels frame bytes_per_frame j fresh).2.trace ++
        failEvents channels frame bytes_per_frame (env.readi j) ∧
    (∀ (e : Env) (fuel : Nat) (s : State) (r : Int),
      (run_tx e verbose channels frame bytes_per_frame fuel s).1 = some r → r = -1) ∧
    (∀ e : Env, (∀ i, 0 ≤ e.readi i ∧ 0 ≤ e.encode i) →
      ∀ fuel, (run_tx e verbose channels frame bytes_per_frame fuel fresh).1 = none) := by
  obtain ⟨f1, f2, f3, f4, f5, f6⟩ :=
    run_tx_failing_iteration env verbose channels frame bytes_per_frame j hok hfail
  refine ⟨fun fuel hfuel => ?_, fun fuel hfuel => ?_, f1, f2, f3, f4, f5, f6,
    fun e fuel s r h => run_tx_returns_neg_one e verbose channels frame bytes_per_frame fuel s r h,
    fun e he fuel => ?_⟩
  · refine (run_tx_of_ok env verbose channels frame bytes_per_frame fuel fresh (by decide) ?_).1
    intro i hi
    simpa [fresh] using hok i (lt_of_lt_of_le hi hfuel)
  · obtain ⟨m, rfl⟩ := Nat.exists_eq_add_of_le hfuel
    exact run_tx_stable env verbose channels frame bytes_per_frame (j + 1) m fresh (-1) f1
  · exact (run_tx_of_ok e verbose channels frame bytes_per_frame fuel fresh (by decide)
      (fun i _ => he _)).1

/-- C9, on a source whose third read fails: two packets are sent, the third
iteration returns -1, and seven more iterations change nothing. -/
theorem run_tx_fail_fast_witness :
    (∀ i, i < 2 → 0 ≤ thirdReadFails.readi i ∧ 0 ≤ thirdReadFails.encode i) ∧
    (thirdReadFails.readi 2 < 0 ∨ thirdReadFails.encode 2 < 0) ∧
    (run_tx thirdReadFails 2 2 256 47 2 fresh).1 = none ∧
    run_tx thirdReadFails 2 2 256 47 10 fresh = run_tx thirdReadFails 2 2 256 47 (2 + 1) fresh ∧
    (run_tx thirdReadFails 2 2 256 47 (2 + 1) fresh).1 = some (-1) ∧
    (run_tx thirdReadFails 2 2 256 47 (2 + 1) fresh).2.trace.countP isRead = 2 + 1 ∧
    (sent (run_tx thirdReadFails 2 2 256 47 (2 + 1) fresh).2.trace).length = 2 :=
  have h := run_tx_fail_fast thirdReadFails 2 2 256 47 2 (by decide) (by decide)
  ⟨by decide, by decide, h.1 2 (le_refl 2), h.2.1 10 (by decide), h.2.2.1, h.2.2.2.1,
    h.2.2.2.2.2.1⟩

end Tx
